import Mathlib

/-!
# aMule `FileFunctions.cpp`: file-type sniffing, archive unpacking, file-system check cache

A shallow embedding of `src/libs/common/FileFunctions.cpp`.

* A file's content is a list of bytes; a byte is a `Fin 256`.
* The wxWidgets stream, zip and temp-file classes and the C library are external to the
  unit.  Their observable behaviour is taken as the fields of `Env` (decoders, commit) or
  given by small explicit models (`InputStream`, `isprint`, `isspace`, `Lower`).
* `UnpackArchive` is recursive without a bound in the source; here it takes fuel and
  returns `none` when the fuel runs out.
* The copy loop of `UnpackZipFile` has no exit but end-of-file; `UnpackZipFile` is `none`
  when that loop never ends.
-/

namespace FileFunctions

/-! ## Data model -/

/-- One byte of a file (`char` seen as its unsigned value). -/
abbrev Byte := Fin 256

/-- Modelled from the spec: the enumeration `EFileType` is declared in
`FileFunctions.h`, which is not among the sources; these are the five tags of the
specification's FileTypeTag, under the names `FileFunctions.cpp` uses. -/
inductive EFileType where
  | EFT_Unknown
  | EFT_Zip
  | EFT_GZip
  | EFT_Met
  | EFT_Text
  deriving DecidableEq, Repr

open EFileType

/-- Modelled from the spec: the type `UnpackResult` is declared in `FileFunctions.h`;
it is the pair (succeeded, finalTypeTag) of the specification, built in the code as
`UnpackResult(bool, EFileType)` and read with `.second`. -/
abbrev UnpackResult := Bool × EFileType

/-! ## C library character classes ("C" locale) -/

/-- The C function `isprint` in the "C" locale: the codes 0x20 to 0x7E. -/
def isprint (c : Byte) : Bool := decide (0x20 ≤ c.val ∧ c.val ≤ 0x7E)

/-- The C function `isspace` in the "C" locale: space, and the codes 0x09 to 0x0D. -/
def isspace (c : Byte) : Bool := decide (c.val = 0x20 ∨ (0x09 ≤ c.val ∧ c.val ≤ 0x0D))

/-! ## GuessFiletype -/

/-- The buffer `char head[10] = {0}` after `archive.Read(head, min(10, Length()))`:
the bytes read, followed by zeros. -/
def headBuffer (bytes : List Byte) (i : Nat) : Byte :=
  ((bytes.take 10)[i]?).getD 0

/-- The function `GuessFiletype`.  The argument is what the file yields when read:
`none` when `archive.Read` returns `wxInvalidOffset`, `some bytes` for a file with
content `bytes`, of which `read = min(10, length)` bytes land in `head`. -/
def GuessFiletype (file : Option (List Byte)) : EFileType :=
  match file with
  | none => EFT_Unknown
  | some bytes =>
    let head := headBuffer bytes
    let read := min 10 bytes.length
    if head 0 = 0x50 ∧ head 1 = 0x4B then
      -- Zip-archives have a header of "PK".
      EFT_Zip
    else if head 0 = 0x1F ∧ head 1 = 0x8B then
      -- Gzip-archives have a header of 0x1F8B
      EFT_GZip
    else if head 0 = 0xE0 ∨ head 0 = 0x0E then
      -- MET files have either of these headers
      EFT_Met
    else if (List.range read).all (fun i => isprint (head i) || isspace (head i)) then
      -- the loop `for (i = 0; i < read; ++i)` found no byte to reject
      EFT_Text
    else
      EFT_Unknown

/-- The classifier of the specification (section 4.1), on the bytes read:
first match wins. -/
def specClassify (bs : List Byte) : EFileType :=
  if bs.take 2 = [0x50, 0x4B] then EFT_Zip
  else if bs.take 2 = [0x1F, 0x8B] then EFT_GZip
  else if bs.head? = some 0xE0 ∨ bs.head? = some 0x0E then EFT_Met
  else if bs.all (fun b => isprint b || isspace b) then EFT_Text
  else EFT_Unknown

/-! ## Strings -/

/-- The method `wxString::Lower` on ASCII letters. -/
def Lower (s : String) : String := String.mk (s.data.map Char.toLower)

/-- The characters after the last occurrence of `ch`, if `ch` occurs. -/
def afterLastChars (ch : Char) : List Char → Option (List Char)
  | [] => none
  | c :: cs =>
    match afterLastChars ch cs with
    | some r => some r
    | none => if c = ch then some cs else none

/-- The method `wxString::AfterLast`: everything after the last occurrence of `ch`,
the whole string when `ch` does not occur. -/
def AfterLast (s : String) (ch : Char) : String :=
  match afterLastChars ch s.data with
  | some r => String.mk r
  | none => s

/-! ## External collaborators -/

/-- What the libraries outside the unit do on this machine.
* `zlibDecode bytes`: what a `wxZlibInputStream` over a file holding `bytes` delivers,
  and whether the compressed data ends cleanly (`true`) or in a decode error (`false`).
* `zipEntries bytes`: the top-level file entries, in archive order, of the zip archive
  held in `bytes`; empty when it cannot be opened.  Both `wxZipFSHandler`
  (`FindFirst`/`FindNext` with the pattern `/*`) and `wxZipInputStream`
  (`GetNextEntry`) enumerate it.  An entry is its stored name, the bytes its data
  stream delivers, and whether that stream ends cleanly (`true`, end-of-file) or in a
  read error (`false`).
* `commitOk original scratch`: whether `wxTempFile::Commit` manages to replace a file
  holding `original` by the scratch file holding `scratch`. -/
structure Env where
  zlibDecode : List Byte → List Byte × Bool
  zipEntries : List Byte → List (String × List Byte × Bool)
  commitOk : List Byte → List Byte → Bool

/-- The values of `wxStreamError` that matter here. -/
inductive wxStreamError where
  | wxSTREAM_NO_ERROR
  | wxSTREAM_EOF
  | wxSTREAM_READ_ERROR
  deriving DecidableEq, Repr

open wxStreamError

/-- A `wxInputStream` that decodes: the bytes it has still to deliver, whether the data
ends cleanly, and the stream's last error. -/
structure InputStream where
  pending : List Byte
  clean : Bool
  lasterror : wxStreamError
  lastread : Nat
  deriving DecidableEq, Repr

namespace InputStream

/-- A freshly opened stream. -/
def init (pending : List Byte) (clean : Bool) : InputStream :=
  { pending := pending, clean := clean, lasterror := wxSTREAM_NO_ERROR, lastread := 0 }

/-- The method `wxInputStream::Eof`. -/
def Eof (s : InputStream) : Bool := decide (s.lasterror = wxSTREAM_EOF)

/-- The method `wxStreamBase::IsOk`. -/
def IsOk (s : InputStream) : Bool := decide (s.lasterror = wxSTREAM_NO_ERROR)

/-- The method `wxInputStream::Read(buffer, size)`: the bytes put in `buffer` and the
stream afterwards.  A stream in error delivers nothing; a read that cannot fill the
buffer ends the stream, in `wxSTREAM_EOF` when the data ends cleanly and in
`wxSTREAM_READ_ERROR` otherwise. -/
def Read (s : InputStream) (size : Nat) : List Byte × InputStream :=
  if s.lasterror ≠ wxSTREAM_NO_ERROR then
    ([], { s with lastread := 0 })
  else
    let buffer := s.pending.take size
    (buffer,
      { pending := s.pending.drop size
        clean := s.clean
        lasterror :=
          if buffer.length < size then
            (if s.clean then wxSTREAM_EOF else wxSTREAM_READ_ERROR)
          else wxSTREAM_NO_ERROR
        lastread := buffer.length })

end InputStream

/-- The size of `char buffer[10240]`. -/
def bufferSize : Nat := 10240

/-- The method `wxTempFile::Commit` as an atomic replace: the file holds the scratch
content when it succeeds and its old content when it fails. -/
def Commit (env : Env) (original scratch : List Byte) : List Byte :=
  if env.commitOk original scratch then scratch else original

/-! ## UnpackZipFile -/

/-- The copy loop `while (!zip.Eof()) { zip.Read(..); target.Write(.., zip.LastRead()); }`,
one round per unit of fuel: `some` of the stream and the scratch file when the loop
ends, `none` when the fuel runs out first.  The loop has no `break`: on a stream in
read error `Eof` stays false and no amount of fuel ends it. -/
def zipCopyLoop : Nat → InputStream → List Byte → Option (InputStream × List Byte)
  | 0, _, _ => none
  | fuel + 1, zip, target =>
    if zip.Eof then some (zip, target)
    else
      let r := zip.Read bufferSize
      zipCopyLoop fuel r.2 (target ++ r.1)

/-- How a loop of `UnpackZipFile` ends: at `return true`, with the content of the file
after `target.Commit()`; at the end of its range; or never, inside the copy loop. -/
inductive ZipScan where
  | found (content : List Byte)
  | notFound
  | spins
  deriving DecidableEq, Repr

/-- The loop `while (entry.reset(zip.GetNextEntry()), entry.get() != NULL)` of
`UnpackZipFile`, looking for the entry whose name equals `filename`.  On a clean
entry every round of the copy loop but the last two delivers a byte, so
`data.length + 2` rounds reach its end; on an entry in read error no number of
rounds does. -/
def scanEntries (env : Env) (file : List Byte) (filename : String) :
    List (String × List Byte × Bool) → ZipScan
  | [] => ZipScan.notFound
  | (name, data, clean) :: rest =>
    if name = filename then
      let zip := InputStream.init data clean
      match zipCopyLoop (data.length + 2) zip [] with
      | some r => ZipScan.found (Commit env file r.2)
      | none => ZipScan.spins
    else
      scanEntries env file filename rest

/-- The loop `for (size_t i = 0; files[i]; ++i)` of `UnpackZipFile`. -/
def scanCandidates (env : Env) (file : List Byte) (filename : String) :
    List String → ZipScan
  | [] => ZipScan.notFound
  | f :: fs =>
    if f = filename then
      match scanEntries env file filename (env.zipEntries file) with
      | ZipScan.notFound => scanCandidates env file filename fs
      | r => r
    else
      scanCandidates env file filename fs

/-- The name `UnpackZipFile` looks up for an archive member: `FindFirst`/`FindNext`
yield the URI `file:<file>#zip:<name>`, of which the code takes
`AfterLast(':').Lower()`.  The part after the last colon of the URI is the part after
the last colon of `name`, or `name` when it has no colon. -/
def zipLookupName (name : String) : String := Lower (AfterLast name ':')

/-- The loop `while (!filename.IsEmpty())` of `UnpackZipFile` over the names that
`FindFirst` and `FindNext` enumerate. -/
def scanArchive (env : Env) (file : List Byte) (files : List String) :
    List String → ZipScan
  | [] => ZipScan.notFound
  | name :: more =>
    let filename := zipLookupName name
    match scanCandidates env file filename files with
    | ZipScan.notFound => scanArchive env file files more
    | r => r

/-- The function `UnpackZipFile`: its result and the content of the file afterwards,
or `none` when the call never returns. -/
def UnpackZipFile (env : Env) (file : List Byte) (files : List String) :
    Option (Bool × List Byte) :=
  match scanArchive env file files ((env.zipEntries file).map (fun e => e.1)) with
  | ZipScan.found content => some (true, content)
  | ZipScan.notFound => some (false, file)
  | ZipScan.spins => none

/-- The entry that the two passes of `UnpackZipFile` settle on, said without loops:
take the first member, in archive order, whose looked-up name is a candidate and is
the stored name of some entry; the entry is the first one stored under that name. -/
def zipSelect (files : List String) (entries : List (String × List Byte × Bool)) :
    Option (String × List Byte × Bool) :=
  (entries.map (fun e => e.1)).findSome? (fun name =>
    if zipLookupName name ∈ files then
      entries.find? (fun e => decide (e.1 = zipLookupName name))
    else none)

/-! ## UnpackGZipFile -/

/-- The loop `while (!inputStream.Eof())` of `UnpackGZipFile` (the branch compiled
when `__WXMAC__` is not defined).  One round per unit of fuel. -/
def gzipReadLoop : Nat → InputStream → List Byte → InputStream × List Byte
  | 0, inputStream, target => (inputStream, target)
  | fuel + 1, inputStream, target =>
    if inputStream.Eof then (inputStream, target)
    else
      let r := inputStream.Read bufferSize
      if r.2.lastread ≠ 0 then
        gzipReadLoop fuel r.2 (target ++ r.1)
      else
        (r.2, target)

/-- The function `UnpackGZipFile`: its result and the content of the file afterwards.
Every round of the loop but the last delivers at least one byte, so
`pending.length + 1` rounds reach the end of the loop. -/
def UnpackGZipFile (env : Env) (file : List Byte) : Bool × List Byte :=
  let decoded := env.zlibDecode file
  let source := InputStream.init decoded.1 decoded.2
  let r := gzipReadLoop (decoded.1.length + 1) source []
  let write := r.1.IsOk || r.1.Eof
  if write then (write, Commit env file r.2) else (write, file)

/-! ## UnpackArchive -/

/-- The function `UnpackArchive` on a readable file: with enough fuel, its result and
the content of the file afterwards; `none` when the recursion is deeper than the
fuel, and when `UnpackZipFile` never returns. -/
def UnpackArchive (env : Env) (files : List String) :
    Nat → List Byte → Option (UnpackResult × List Byte)
  | 0, _ => none
  | fuel + 1, file =>
    match GuessFiletype (some file) with
    | EFT_Zip =>
      match UnpackZipFile env file files with
      | none => none
      | some (true, file1) =>
        -- Unpack nested archives if needed.
        (UnpackArchive env files fuel file1).map (fun r => ((true, r.1.2), r.2))
      | some (false, file1) => some ((false, EFT_Zip), file1)
    | EFT_GZip =>
      match UnpackGZipFile env file with
      | (true, file1) =>
        -- Unpack nested archives if needed.
        (UnpackArchive env files fuel file1).map (fun r => ((true, r.1.2), r.2))
      | (false, file1) => some ((false, EFT_GZip), file1)
    | type => some ((false, type), file)

/-! ## CheckFileSystem -/

/-- Modelled from the spec: the enumeration `FSCheckResult` is declared in
`FileFunctions.h`; these are the three values of the specification's
FilesystemCapability, under the names `FileFunctions.cpp` uses. -/
inductive FSCheckResult where
  | FS_IsFAT32
  | FS_NotFAT32
  | FS_Failed
  deriving DecidableEq, Repr

open FSCheckResult

/-- What `open(fullName, O_WRONLY | O_CREAT | O_EXCL)` does: a descriptor, or `-1`
with `errno` set. -/
inductive OpenOutcome where
  | opened
  | errnoEINVAL
  | errnoEEXIST
  | errnoOther
  deriving DecidableEq, Repr

/-- The function `DoCheckFileSystem`, given what `open` does for the probe file of
`path`. -/
def DoCheckFileSystem {CPath : Type} (sysOpen : CPath → OpenOutcome) (path : CPath) :
    FSCheckResult :=
  match sysOpen path with
  | OpenOutcome.opened => FS_NotFAT32
  | OpenOutcome.errnoEINVAL => FS_IsFAT32
  | OpenOutcome.errnoEEXIST => FS_NotFAT32
  | OpenOutcome.errnoOther => FS_Failed

/-- The static state of `CheckFileSystem`: the map `s_cache`, and a log of the paths
handed to `DoCheckFileSystem`, oldest first, kept to count the probes. -/
structure CacheState (CPath : Type) where
  s_cache : List (CPath × FSCheckResult)
  probes : List CPath

/-- The state at process start: an empty cache and no probe so far. -/
def CacheState.empty {CPath : Type} : CacheState CPath :=
  { s_cache := [], probes := [] }

/-- The assignment `s_cache[path] = value` of `std::map`. -/
def cacheAssign {CPath : Type} [DecidableEq CPath] (cache : List (CPath × FSCheckResult))
    (path : CPath) (value : FSCheckResult) : List (CPath × FSCheckResult) :=
  (path, value) :: cache.filter (fun e => decide (e.1 ≠ path))

/-- The function `CheckFileSystem` (the branch compiled when `__WXMSW__` is not
defined) as a step on the static state.  The class `CPath` is declared outside the
sources: the type of paths and `IsOk`, its method `CPath::IsOk`, are parameters.
`sysOpen n` is what `open` does once `n` probes have been made, so the file system
may answer differently over time.  The lock `s_lock` is not modelled: calls are taken
one after the other. -/
def CheckFileSystem {CPath : Type} [DecidableEq CPath] (IsOk : CPath → Bool)
    (sysOpen : Nat → CPath → OpenOutcome) (s : CacheState CPath) (path : CPath) :
    FSCheckResult × CacheState CPath :=
  if IsOk path = false then
    -- wxCHECK_MSG(path.IsOk(), FS_Failed, ...)
    (FS_Failed, s)
  else
    match s.s_cache.lookup path with
    | some cached => (cached, s)
    | none =>
      let value := DoCheckFileSystem (sysOpen s.probes.length) path
      (value, { s_cache := cacheAssign s.s_cache path value, probes := s.probes ++ [path] })

/-- A sequence of calls of `CheckFileSystem`: the values returned, in order, and the
state afterwards. -/
def runCalls {CPath : Type} [DecidableEq CPath] (IsOk : CPath → Bool)
    (sysOpen : Nat → CPath → OpenOutcome) :
    CacheState CPath → List CPath → List FSCheckResult × CacheState CPath
  | s, [] => ([], s)
  | s, path :: rest =>
    let r := CheckFileSystem IsOk sysOpen s path
    let rs := runCalls IsOk sysOpen r.2 rest
    (r.1 :: rs.1, rs.2)

/-! ## Concrete environments -/

/-- A toy gzip decoder: the data after the two magic bytes, stored. -/
def storedInflate : List Byte → List Byte × Bool
  | 0x1F :: 0x8B :: rest => (rest, true)
  | _ => ([], false)

/-- The bytes of an archive with the members "guarding.p2p" and "ipfilter.dat". -/
def twoMemberZip : List Byte := [0x50, 0x4B, 0x03, 0x04, 0x02]

/-- The bytes of an archive with the single member "IPFilter.DAT". -/
def mixedCaseZip : List Byte := [0x50, 0x4B, 0x03, 0x04, 0x01]

/-- The bytes of an archive whose single member "ipfilter.dat" is damaged: its data
stream delivers one byte and then fails. -/
def badEntryZip : List Byte := [0x50, 0x4B, 0x03, 0x04, 0x00]

/-- A zip reader that knows the three archives above. -/
def tableZipEntries (bytes : List Byte) : List (String × List Byte × Bool) :=
  if bytes = twoMemberZip then
    [("guarding.p2p", [0x61, 0x62, 0x63], true), ("ipfilter.dat", [0x78, 0x79, 0x7A], true)]
  else if bytes = mixedCaseZip then
    [("IPFilter.DAT", [0x78, 0x79, 0x7A], true)]
  else if bytes = badEntryZip then
    [("ipfilter.dat", [0x78], false)]
  else []

/-- An environment in which every commit succeeds. -/
def storedEnv : Env :=
  { zlibDecode := storedInflate, zipEntries := tableZipEntries, commitOk := fun _ _ => true }

/-- An environment in which no commit succeeds (a directory that cannot be written). -/
def noCommitEnv : Env :=
  { zlibDecode := storedInflate, zipEntries := tableZipEntries, commitOk := fun _ _ => false }

/-- A gzip file that is its own decompressed form. -/
def selfGz : List Byte := [0x1F, 0x8B, 0x08]

/-- An environment whose decoder maps `selfGz` to itself; every commit succeeds. -/
def selfEnv : Env :=
  { zlibDecode := fun bytes => if bytes = selfGz then (selfGz, true) else storedInflate bytes
    zipEntries := tableZipEntries
    commitOk := fun _ _ => true }

/-- The three files that unpacking the gzip of `twoMemberZip` goes through when
"ipfilter.dat" is the candidate. -/
def nestedChain (file : List Byte) : Prop :=
  file = 0x1F :: 0x8B :: twoMemberZip ∨ file = twoMemberZip ∨ file = [0x78, 0x79, 0x7A]

/-- A validity test standing for `CPath::IsOk`, for paths kept as strings: the path is
not empty. -/
def pathIsOk (path : String) : Bool := decide (path ≠ "")

/-- A file system on which the first probe fails for another reason and every later
probe creates the file. -/
def flakyOpen (n : Nat) (_ : String) : OpenOutcome :=
  if n = 0 then OpenOutcome.errnoOther else OpenOutcome.opened

/-! ## Theorems: GuessFiletype -/

/-- The loop over the indices of the bytes read checks every byte read. -/
theorem range_all_getD (p : Byte → Bool) (l : List Byte) :
    (List.range l.length).all (fun i => p ((l[i]?).getD 0)) = l.all p := by
  induction l with
  | nil => rfl
  | cons a l ih =>
    rw [List.length_cons, List.range_succ_eq_map, List.all_cons, List.all_cons,
      List.all_map, ← ih]
    simp [Function.comp_def]

/-- The number of bytes read is the length of the prefix in the buffer. -/
theorem read_eq_length_take (bytes : List Byte) :
    min 10 bytes.length = (bytes.take 10).length := by
  simp [List.length_take]

/-- The printable-or-whitespace loop of `GuessFiletype`, as a check of the prefix. -/
theorem loop_eq_all (bytes : List Byte) :
    (List.range (min 10 bytes.length)).all
        (fun i => isprint (headBuffer bytes i) || isspace (headBuffer bytes i))
      = (bytes.take 10).all (fun b => isprint b || isspace b) := by
  rw [read_eq_length_take]
  exact range_all_getD (fun b => isprint b || isspace b) (bytes.take 10)

/-- The first two cells of the buffer are the first two bytes, when there are two. -/
theorem head01_iff (bytes : List Byte) (a b : Byte) (ha : a ≠ 0) (hb : b ≠ 0) :
    (headBuffer bytes 0 = a ∧ headBuffer bytes 1 = b) ↔ (bytes.take 10).take 2 = [a, b] := by
  match bytes with
  | [] => simp [headBuffer]; intro h; exact absurd h.symm ha
  | [x] => simp [headBuffer]; intro _ h; exact hb h.symm
  | x :: y :: rest => simp [headBuffer]

/-- The first cell of the buffer is the first byte, when there is one. -/
theorem head0_iff (bytes : List Byte) (a : Byte) (ha : a ≠ 0) :
    headBuffer bytes 0 = a ↔ (bytes.take 10).head? = some a := by
  match bytes with
  | [] => simp [headBuffer]; intro h; exact absurd h.symm ha
  | x :: rest => simp [headBuffer]

/-- `GuessFiletype` on a readable file is the classifier of the specification on the
first ten bytes. -/
theorem GuessFiletype_eq_specClassify (bytes : List Byte) :
    GuessFiletype (some bytes) = specClassify (bytes.take 10) := by
  have hPK := head01_iff bytes 0x50 0x4B (by decide) (by decide)
  have hGZ := head01_iff bytes 0x1F 0x8B (by decide) (by decide)
  have hE0 := head0_iff bytes 0xE0 (by decide)
  have h0E := head0_iff bytes 0x0E (by decide)
  simp only [GuessFiletype, specClassify, hPK, hGZ, hE0, h0E, loop_eq_all]


/-- C1: for a file whose read succeeds, `GuessFiletype` equals the first-match-wins
classifier of the specification applied to the first `min(10, length)` bytes (Zip on
"PK", else GZip on 0x1F 0x8B, else Met on a first byte 0xE0 or 0x0E, else Text when
every byte read is printable or whitespace, else Unknown), so two files that agree on
their first ten bytes get the same tag. -/
theorem GuessFiletype_refines_spec (bytes bytes' : List Byte) :
    GuessFiletype (some bytes) = specClassify (bytes.take 10) ∧
    (bytes.take 10 = bytes'.take 10 →
      GuessFiletype (some bytes) = GuessFiletype (some bytes')) := by
  refine ⟨GuessFiletype_eq_specClassify bytes, fun h => ?_⟩
  rw [GuessFiletype_eq_specClassify, GuessFiletype_eq_specClassify, h]

/-- C1 at two files of eleven bytes that differ in the eleventh byte only. -/
theorem GuessFiletype_refines_spec_witness :
    GuessFiletype (some [0x69, 0x70, 0x66, 0x69, 0x6C, 0x74, 0x65, 0x72, 0x20, 0x31, 0x00])
      = GuessFiletype (some [0x69, 0x70, 0x66, 0x69, 0x6C, 0x74, 0x65, 0x72, 0x20, 0x31, 0x41]) :=
  (GuessFiletype_refines_spec _ _).2 (by decide)

/-- C9, as stated, fails: the empty file, the one-byte file "a" and the one-byte file
0xE0 are shorter than two bytes and are not classified Unknown. -/
theorem GuessFiletype_short_counterexample :
    ([] : List Byte).length < 2 ∧ GuessFiletype (some []) = EFT_Text ∧
    ([0x61] : List Byte).length < 2 ∧ GuessFiletype (some [0x61]) = EFT_Text ∧
    ([0xE0] : List Byte).length < 2 ∧ GuessFiletype (some [0xE0]) = EFT_Met := by
  decide

/-- C9, amended: a file shorter than two bytes is never classified Zip or GZip; the
empty file is Text; a one-byte file is Met when the byte is 0xE0 or 0x0E, else Text
when the byte is printable or whitespace, else Unknown. -/
theorem GuessFiletype_short (bytes : List Byte) (h : bytes.length < 2) :
    GuessFiletype (some bytes) ≠ EFT_Zip ∧ GuessFiletype (some bytes) ≠ EFT_GZip ∧
    (bytes = [] → GuessFiletype (some bytes) = EFT_Text) ∧
    (∀ b, bytes = [b] → GuessFiletype (some bytes) =
      if b = 0xE0 ∨ b = 0x0E then EFT_Met
      else if isprint b || isspace b then EFT_Text else EFT_Unknown) := by
  match bytes, h with
  | [], _ =>
    refine ⟨by decide, by decide, fun _ => by decide, fun b hb => by simp at hb⟩
  | [x], _ =>
    have hx : GuessFiletype (some [x]) =
        if x = 0xE0 ∨ x = 0x0E then EFT_Met
        else if isprint x || isspace x then EFT_Text else EFT_Unknown := by
      rw [GuessFiletype_eq_specClassify]
      simp [specClassify]
    refine ⟨?_, ?_, fun hb => by simp at hb, fun b hb => ?_⟩
    · rw [hx]; split_ifs <;> simp
    · rw [hx]; split_ifs <;> simp
    · obtain rfl : x = b := by simpa using hb
      exact hx
  | _ :: _ :: _, h => simp at h; omega

/-- C9, amended, at the one-byte file 0x00, which is classified Unknown. -/
theorem GuessFiletype_short_witness : GuessFiletype (some [0x00]) = EFT_Unknown :=
  ((GuessFiletype_short [0x00] (by decide)).2.2.2 0x00 rfl).trans (by decide)

/-- C10, as stated, fails: the ten bytes "PKWARE zip" are all printable ASCII, and
the file is classified Zip. -/
theorem GuessFiletype_printable_counterexample :
    (([0x50, 0x4B, 0x57, 0x41, 0x52, 0x45, 0x20, 0x7A, 0x69, 0x70] : List Byte).take 10).all
      (fun b => isprint b) = true ∧
    GuessFiletype (some [0x50, 0x4B, 0x57, 0x41, 0x52, 0x45, 0x20, 0x7A, 0x69, 0x70])
      = EFT_Zip := by
  decide

/-- C10, amended: a file whose first ten bytes (all of them when it is shorter) are
printable ASCII or whitespace, and whose first two bytes are not "PK", is classified
Text. -/
theorem GuessFiletype_printable (bytes : List Byte)
    (hprint : ∀ b ∈ bytes.take 10, isprint b = true ∨ isspace b = true)
    (hPK : bytes.take 2 ≠ [0x50, 0x4B]) :
    GuessFiletype (some bytes) = EFT_Text := by
  have hall : (bytes.take 10).all (fun b => isprint b || isspace b) = true := by
    simpa [List.all_eq_true] using hprint
  have hmem : ∀ b, (b : Byte) ∈ bytes.take 10 → (isprint b || isspace b) = true := by
    intro b hb; simpa using hprint b hb
  have h2 : (bytes.take 10).take 2 = bytes.take 2 := by simp [List.take_take]
  rw [GuessFiletype_eq_specClassify]
  unfold specClassify
  rw [h2, if_neg hPK, if_neg, if_neg, if_pos hall]
  · intro h
    have hE0 : ¬ ((0xE0 : Byte) ∈ bytes.take 10) := fun hm => by
      have := hmem _ hm; revert this; decide
    have h0E : ¬ ((0x0E : Byte) ∈ bytes.take 10) := fun hm => by
      have := hmem _ hm; revert this; decide
    rcases h with h | h
    · exact hE0 (List.mem_of_mem_head? h)
    · exact h0E (List.mem_of_mem_head? h)
  · intro h
    have h1F : ¬ ((0x1F : Byte) ∈ bytes.take 10) := fun hm => by
      have := hmem _ hm; revert this; decide
    apply h1F
    have : (0x1F : Byte) ∈ bytes.take 2 := by rw [h]; simp
    exact List.mem_of_mem_take (h2 ▸ this)

/-- C10, amended, at the text "ipfilter 1.0". -/
theorem GuessFiletype_printable_witness :
    GuessFiletype
      (some [0x69, 0x70, 0x66, 0x69, 0x6C, 0x74, 0x65, 0x72, 0x20, 0x31, 0x2E, 0x30])
      = EFT_Text :=
  GuessFiletype_printable _
    (fun b hb => by
      have h := List.all_eq_true.mp
        (by decide : (([0x69, 0x70, 0x66, 0x69, 0x6C, 0x74, 0x65, 0x72, 0x20, 0x31, 0x2E, 0x30] :
          List Byte).take 10).all (fun b => isprint b || isspace b) = true) b hb
      simpa using h)
    (by decide)

/-! ## Theorems: streams and the unpack steps -/

/-- A stream in error delivers nothing more to the gzip loop. -/
theorem gzipReadLoop_error (fuel : Nat) (s : InputStream) (t : List Byte)
    (h : s.lasterror ≠ wxSTREAM_NO_ERROR) :
    (gzipReadLoop fuel s t).2 = t ∧ (gzipReadLoop fuel s t).1.lasterror = s.lasterror := by
  cases fuel with
  | zero => simp [gzipReadLoop]
  | succ n =>
    unfold gzipReadLoop
    by_cases he : s.Eof = true
    · simp [he]
    · simp [he, InputStream.Read, h]

/-- With enough fuel the gzip loop writes all the decoded bytes and leaves the stream
at end-of-file when the data is clean and in read error otherwise. -/
theorem gzipReadLoop_ok (fuel : Nat) : ∀ (s : InputStream) (t : List Byte),
    s.lasterror = wxSTREAM_NO_ERROR → s.pending.length < fuel →
    (gzipReadLoop fuel s t).2 = t ++ s.pending ∧
    (gzipReadLoop fuel s t).1.lasterror =
      (if s.clean then wxSTREAM_EOF else wxSTREAM_READ_ERROR) := by
  induction fuel with
  | zero => intro s t _ h; omega
  | succ n ih =>
    intro s t hs hlen
    unfold gzipReadLoop
    have he : s.Eof = false := by simp [InputStream.Eof, hs]
    simp only [he, Bool.false_eq_true, if_false]
    by_cases hshort : s.pending.length < bufferSize
    · -- the last chunk
      have htake : s.pending.take bufferSize = s.pending :=
        List.take_of_length_le (Nat.le_of_lt hshort)
      by_cases hempty : s.pending.length = 0
      · have hnil : s.pending = [] := List.length_eq_zero.mp hempty
        simp [InputStream.Read, hs, hnil, bufferSize]
      · have herr : (s.Read bufferSize).2.lasterror ≠ wxSTREAM_NO_ERROR := by
          simp [InputStream.Read, hs, htake, hshort]
          split <;> simp
        have hlr : (s.Read bufferSize).2.lastread ≠ 0 := by
          simp [InputStream.Read, hs, htake]
          exact fun h => hempty (by simp [h])
        rw [if_pos hlr]
        obtain ⟨h1, h2⟩ := gzipReadLoop_error n (s.Read bufferSize).2
          (t ++ (s.Read bufferSize).1) herr
        rw [h1, h2]
        simp [InputStream.Read, hs, htake, hshort]
    · -- a full chunk
      have hge : bufferSize ≤ s.pending.length := Nat.le_of_not_lt hshort
      have hlen' : (s.pending.take bufferSize).length = bufferSize := by
        simp [List.length_take, hge]
      have hlr : (s.Read bufferSize).2.lastread ≠ 0 := by
        have hread : (s.Read bufferSize).2.lastread = (s.pending.take bufferSize).length := by
          simp only [InputStream.Read, hs, ne_eq, not_true_eq_false, if_false]
        rw [hread, hlen']
        decide
      rw [if_pos hlr]
      have hs' : (s.Read bufferSize).2.lasterror = wxSTREAM_NO_ERROR := by
        simp [InputStream.Read, hs, hlen']
      have hp' : (s.Read bufferSize).2.pending = s.pending.drop bufferSize := by
        simp [InputStream.Read, hs]
      have hc' : (s.Read bufferSize).2.clean = s.clean := by
        simp [InputStream.Read, hs]
      have hb' : (s.Read bufferSize).1 = s.pending.take bufferSize := by
        simp [InputStream.Read, hs]
      have hlt : (s.Read bufferSize).2.pending.length < n := by
        rw [hp', List.length_drop]
        have : 0 < bufferSize := by decide
        omega
      obtain ⟨h1, h2⟩ := ih (s.Read bufferSize).2 (t ++ (s.Read bufferSize).1) hs' hlt
      rw [h1, h2, hp', hc', hb', List.append_assoc, List.take_append_drop]
      exact ⟨rfl, rfl⟩

/-- `UnpackGZipFile` returns whether the data ended cleanly; it commits all the decoded
bytes in that case and nothing otherwise. -/
theorem UnpackGZipFile_eq (env : Env) (file : List Byte) :
    UnpackGZipFile env file =
      if (env.zlibDecode file).2 = true then
        (true, Commit env file (env.zlibDecode file).1)
      else (false, file) := by
  obtain ⟨h1, h2⟩ := gzipReadLoop_ok ((env.zlibDecode file).1.length + 1)
    (InputStream.init (env.zlibDecode file).1 (env.zlibDecode file).2) [] rfl
    (by simp [InputStream.init])
  unfold UnpackGZipFile
  simp only [InputStream.IsOk, InputStream.Eof, h1, h2]
  cases hc : (env.zlibDecode file).2 <;> simp [InputStream.init, hc]

/-- A stream at end-of-file ends the zip copy loop. -/
theorem zipCopyLoop_eof (fuel : Nat) (s : InputStream) (t : List Byte)
    (h : s.lasterror = wxSTREAM_EOF) : zipCopyLoop (fuel + 1) s t = some (s, t) := by
  simp [zipCopyLoop, InputStream.Eof, h]

/-- With enough fuel the zip copy loop ends on a clean entry, with all its bytes
written. -/
theorem zipCopyLoop_clean (fuel : Nat) : ∀ (s : InputStream) (t : List Byte),
    s.lasterror = wxSTREAM_NO_ERROR → s.clean = true → s.pending.length + 1 < fuel →
    ∃ z, zipCopyLoop fuel s t = some (z, t ++ s.pending) := by
  induction fuel with
  | zero => intro s t _ _ h; omega
  | succ n ih =>
    intro s t hs hc hlen
    unfold zipCopyLoop
    have he : s.Eof = false := by simp [InputStream.Eof, hs]
    simp only [he, Bool.false_eq_true, if_false]
    have hb' : (s.Read bufferSize).1 = s.pending.take bufferSize := by
      simp [InputStream.Read, hs]
    by_cases hshort : s.pending.length < bufferSize
    · have htake : s.pending.take bufferSize = s.pending :=
        List.take_of_length_le (Nat.le_of_lt hshort)
      have herr : (s.Read bufferSize).2.lasterror = wxSTREAM_EOF := by
        simp [InputStream.Read, hs, htake, hshort, hc]
      obtain ⟨m, rfl⟩ : ∃ m, n = m + 1 := ⟨n - 1, by omega⟩
      exact ⟨_, by rw [zipCopyLoop_eof m _ _ herr, hb', htake]⟩
    · have hge : bufferSize ≤ s.pending.length := Nat.le_of_not_lt hshort
      have hlen' : (s.pending.take bufferSize).length = bufferSize := by
        simp [List.length_take, hge]
      have hs' : (s.Read bufferSize).2.lasterror = wxSTREAM_NO_ERROR := by
        simp [InputStream.Read, hs, hlen']
      have hp' : (s.Read bufferSize).2.pending = s.pending.drop bufferSize := by
        simp [InputStream.Read, hs]
      have hc' : (s.Read bufferSize).2.clean = true := by
        simp [InputStream.Read, hs, hc]
      have hlt : (s.Read bufferSize).2.pending.length + 1 < n := by
        rw [hp', List.length_drop]
        have : 0 < bufferSize := by decide
        omega
      obtain ⟨z, hz⟩ := ih (s.Read bufferSize).2 (t ++ (s.Read bufferSize).1) hs' hc' hlt
      exact ⟨z, by rw [hz, hp', hb', List.append_assoc, List.take_append_drop]⟩

/-- On an entry whose data ends in a read error the zip copy loop ends at no fuel:
the stream never reaches end-of-file. -/
theorem zipCopyLoop_spins (fuel : Nat) : ∀ (s : InputStream) (t : List Byte),
    s.lasterror ≠ wxSTREAM_EOF → s.clean = false → zipCopyLoop fuel s t = none := by
  induction fuel with
  | zero => intro s t _ _; rfl
  | succ n ih =>
    intro s t hs hc
    unfold zipCopyLoop
    have he : s.Eof = false := by simp [InputStream.Eof, hs]
    simp only [he, Bool.false_eq_true, if_false]
    apply ih
    · unfold InputStream.Read
      split
      · exact hs
      · simp only [hc, Bool.false_eq_true, if_false]
        split <;> simp
    · unfold InputStream.Read
      split <;> simp [hc]

/-- The entry scan stops at the first entry named `filename`: it commits the entry's
data when the data reads cleanly and never returns otherwise. -/
theorem scanEntries_eq (env : Env) (file : List Byte) (filename : String)
    (entries : List (String × List Byte × Bool)) :
    scanEntries env file filename entries =
      match entries.find? (fun e => decide (e.1 = filename)) with
      | none => ZipScan.notFound
      | some e =>
        if e.2.2 = true then ZipScan.found (Commit env file e.2.1) else ZipScan.spins := by
  induction entries with
  | nil => rfl
  | cons e rest ih =>
    obtain ⟨name, data, clean⟩ := e
    unfold scanEntries
    by_cases hn : name = filename
    · cases clean with
      | true =>
        obtain ⟨z, hz⟩ := zipCopyLoop_clean (data.length + 2) (InputStream.init data true) []
          rfl rfl (by simp [InputStream.init])
        have hz' : zipCopyLoop (data.length + 2) (InputStream.init data true) []
            = some (z, data) := by simpa [InputStream.init] using hz
        simp [hn, hz']
      | false =>
        have hz := zipCopyLoop_spins (data.length + 2) (InputStream.init data false) []
          (by simp [InputStream.init]) rfl
        simp [hn, hz]
    · simp [hn, ih]

/-- The candidate loop scans the entries when `filename` is a candidate, and only
then. -/
theorem scanCandidates_eq (env : Env) (file : List Byte) (filename : String)
    (files : List String) :
    scanCandidates env file filename files =
      if filename ∈ files then scanEntries env file filename (env.zipEntries file)
      else ZipScan.notFound := by
  induction files with
  | nil => rfl
  | cons f fs ih =>
    unfold scanCandidates
    by_cases hf : f = filename
    · subst hf
      simp only [if_true, List.mem_cons, true_or]
      cases hscan : scanEntries env file f (env.zipEntries file) with
      | found c => rfl
      | spins => rfl
      | notFound =>
        simp only [ih, hscan]
        split <;> rfl
    · have hf' : ¬ filename = f := fun h => hf h.symm
      simp only [hf, if_false, ih, List.mem_cons, hf', false_or]

/-- The archive scan ends as the entry of `zipSelect` says. -/
theorem scanArchive_eq (env : Env) (file : List Byte) (files names : List String) :
    scanArchive env file files names =
      match names.findSome? (fun name =>
          if zipLookupName name ∈ files then
            (env.zipEntries file).find? (fun e => decide (e.1 = zipLookupName name))
          else none) with
      | none => ZipScan.notFound
      | some e =>
        if e.2.2 = true then ZipScan.found (Commit env file e.2.1) else ZipScan.spins := by
  induction names with
  | nil => rfl
  | cons n more ih =>
    unfold scanArchive
    simp only [scanCandidates_eq, scanEntries_eq, List.findSome?_cons]
    by_cases hn : zipLookupName n ∈ files
    · simp only [hn, if_true]
      cases hfind : (env.zipEntries file).find? (fun e => decide (e.1 = zipLookupName n)) with
      | none => simpa using ih
      | some e =>
        obtain ⟨name, data, clean⟩ := e
        cases clean <;> simp
    · simp only [hn, if_false]
      simpa using ih

/-- `UnpackZipFile` returns false, with the file as it was, when no entry is selected;
returns true, with the selected entry's data committed, when that data reads cleanly;
and never returns when it does not. -/
theorem UnpackZipFile_eq (env : Env) (file : List Byte) (files : List String) :
    UnpackZipFile env file files =
      match zipSelect files (env.zipEntries file) with
      | none => some (false, file)
      | some e =>
        if e.2.2 = true then some (true, Commit env file e.2.1) else none := by
  unfold UnpackZipFile zipSelect
  rw [scanArchive_eq]
  cases (List.map (fun e => e.1) (env.zipEntries file)).findSome? (fun name =>
      if zipLookupName name ∈ files then
        (env.zipEntries file).find? (fun e => decide (e.1 = zipLookupName name))
      else none) with
  | none => rfl
  | some e =>
    obtain ⟨name, data, clean⟩ := e
    cases clean <;> simp

/-- No entry is selected when no member has a candidate's name after lowercasing,
and when no entry is stored under a candidate's name. -/
theorem zipSelect_none (files : List String) (entries : List (String × List Byte × Bool))
    (h : (∀ e ∈ entries, zipLookupName e.1 ∉ files) ∨ (∀ e ∈ entries, e.1 ∉ files)) :
    zipSelect files entries = none := by
  unfold zipSelect
  rw [List.findSome?_eq_none_iff]
  intro n hn
  obtain ⟨e, he, rfl⟩ := List.mem_map.mp hn
  by_cases hc : zipLookupName e.1 ∈ files
  · rcases h with h | h
    · exact absurd hc (h e he)
    · rw [if_pos hc, List.find?_eq_none]
      intro e' he' heq
      have heq' : e'.1 = zipLookupName e.1 := by simpa using heq
      exact h e' he' (heq' ▸ hc)
  · rw [if_neg hc]

/-- The entry selected is the first member whose lowercased name is a candidate, when
that member is stored under the lowercased name. -/
theorem zipSelect_first (files : List String) (pre post : List (String × List Byte × Bool))
    (name : String) (m : List Byte) (clean : Bool)
    (hname : name ∈ files) (hlow : zipLookupName name = name)
    (hpre : ∀ e ∈ pre, zipLookupName e.1 ∉ files) :
    zipSelect files (pre ++ (name, m, clean) :: post) = some (name, m, clean) := by
  have hne : ∀ e ∈ pre, e.1 ≠ name := fun e he heq =>
    hpre e he (by rw [heq, hlow]; exact hname)
  have hfind : (pre ++ (name, m, clean) :: post).find? (fun e => decide (e.1 = name))
      = some (name, m, clean) := by
    rw [List.find?_append]
    have : pre.find? (fun e => decide (e.1 = name)) = none := by
      rw [List.find?_eq_none]
      intro e he
      simpa using hne e he
    rw [this]
    simp
  have hprefix : (pre.map (fun e => e.1)).findSome? (fun n =>
      if zipLookupName n ∈ files then
        (pre ++ (name, m, clean) :: post).find? (fun e => decide (e.1 = zipLookupName n))
      else none) = none := by
    rw [List.findSome?_eq_none_iff]
    intro n hn
    obtain ⟨e, he, rfl⟩ := List.mem_map.mp hn
    rw [if_neg (hpre e he)]
  unfold zipSelect
  rw [List.map_append, List.findSome?_append, hprefix, List.map_cons, List.findSome?_cons]
  simp only [hlow, hname, if_true, hfind]
  rfl

/-- `UnpackZipFile` fails, with the file as it was, when no member has a candidate's
name after lowercasing, and when no entry is stored under a candidate's name. -/
theorem UnpackZipFile_miss (env : Env) (file : List Byte) (files : List String)
    (h : (∀ e ∈ env.zipEntries file, zipLookupName e.1 ∉ files) ∨
      (∀ e ∈ env.zipEntries file, e.1 ∉ files)) :
    UnpackZipFile env file files = some (false, file) := by
  rw [UnpackZipFile_eq, zipSelect_none files _ h]

/-- `UnpackZipFile` extracts the first member whose lowercased name is a candidate,
when that member is stored under the lowercased name and its data reads cleanly. -/
theorem UnpackZipFile_first (env : Env) (file : List Byte) (files : List String)
    (pre post : List (String × List Byte × Bool)) (name : String) (m : List Byte)
    (hz : env.zipEntries file = pre ++ (name, m, true) :: post)
    (hname : name ∈ files) (hlow : zipLookupName name = name)
    (hpre : ∀ e ∈ pre, zipLookupName e.1 ∉ files) :
    UnpackZipFile env file files = some (true, Commit env file m) := by
  rw [UnpackZipFile_eq, hz, zipSelect_first files pre post name m true hname hlow hpre]
  rfl

/-- A failed `UnpackZipFile` leaves the file as it was. -/
theorem UnpackZipFile_false (env : Env) (file : List Byte) (files : List String)
    (r : Bool × List Byte) (h : UnpackZipFile env file files = some r) (hr : r.1 = false) :
    r.2 = file := by
  rw [UnpackZipFile_eq] at h
  cases hsel : zipSelect files (env.zipEntries file) with
  | none =>
    rw [hsel] at h
    have := Option.some.inj h
    rw [← this]
  | some e =>
    rw [hsel] at h
    by_cases hc : e.2.2 = true
    · simp only [hc, if_true] at h
      have := Option.some.inj h
      rw [← this] at hr
      simp at hr
    · simp [hc] at h

/-- A failed `UnpackGZipFile` leaves the file as it was. -/
theorem UnpackGZipFile_false (env : Env) (file : List Byte)
    (h : (UnpackGZipFile env file).1 = false) : (UnpackGZipFile env file).2 = file := by
  rw [UnpackGZipFile_eq] at h ⊢
  split at h
  · simp at h
  · rename_i hc; rw [if_neg hc]

/-- A file that starts with 0x1F 0x8B is classified GZip. -/
theorem GuessFiletype_gzip (file : List Byte) (h : file.take 2 = [0x1F, 0x8B]) :
    GuessFiletype (some file) = EFT_GZip := by
  have h2 : (file.take 10).take 2 = file.take 2 := by simp [List.take_take]
  rw [GuessFiletype_eq_specClassify]
  unfold specClassify
  rw [h2, h, if_neg (by decide), if_pos rfl]

/-- A file that starts with "PK" is classified Zip. -/
theorem GuessFiletype_zip (file : List Byte) (h : file.take 2 = [0x50, 0x4B]) :
    GuessFiletype (some file) = EFT_Zip := by
  have h2 : (file.take 10).take 2 = file.take 2 := by simp [List.take_take]
  rw [GuessFiletype_eq_specClassify]
  unfold specClassify
  rw [h2, h, if_pos rfl]

/-- One round of `UnpackArchive` on a file classified GZip. -/
theorem UnpackArchive_gzip (env : Env) (files : List String) (fuel : Nat) (file : List Byte)
    (h : GuessFiletype (some file) = EFT_GZip) :
    UnpackArchive env files (fuel + 1) file =
      if (UnpackGZipFile env file).1 = true then
        (UnpackArchive env files fuel (UnpackGZipFile env file).2).map
          (fun r => ((true, r.1.2), r.2))
      else some ((false, EFT_GZip), (UnpackGZipFile env file).2) := by
  rw [UnpackArchive]
  simp only [h]
  rcases hr : UnpackGZipFile env file with ⟨b, file1⟩
  cases b <;> simp

/-- One round of `UnpackArchive` on a file classified Zip. -/
theorem UnpackArchive_zip (env : Env) (files : List String) (fuel : Nat) (file : List Byte)
    (h : GuessFiletype (some file) = EFT_Zip) :
    UnpackArchive env files (fuel + 1) file =
      match UnpackZipFile env file files with
      | none => none
      | some r =>
        if r.1 = true then
          (UnpackArchive env files fuel r.2).map (fun q => ((true, q.1.2), q.2))
        else some ((false, EFT_Zip), r.2) := by
  rw [UnpackArchive]
  simp only [h]
  rcases hr : UnpackZipFile env file files with _ | ⟨b, file1⟩
  · rfl
  · cases b <;> simp

/-- One round of `UnpackArchive` on a file that is no archive. -/
theorem UnpackArchive_other (env : Env) (files : List String) (fuel : Nat) (file : List Byte)
    (hz : GuessFiletype (some file) ≠ EFT_Zip) (hg : GuessFiletype (some file) ≠ EFT_GZip) :
    UnpackArchive env files (fuel + 1) file =
      some ((false, GuessFiletype (some file)), file) := by
  rw [UnpackArchive]
  cases ht : GuessFiletype (some file) <;> simp_all

/-- More fuel does not change a result of `UnpackArchive`. -/
theorem UnpackArchive_mono (env : Env) (files : List String) (fuel : Nat) :
    ∀ (file : List Byte) (r : UnpackResult × List Byte),
      UnpackArchive env files fuel file = some r →
      UnpackArchive env files (fuel + 1) file = some r := by
  induction fuel with
  | zero => intro file r h; simp [UnpackArchive] at h
  | succ n ih =>
    intro file r h
    by_cases hg : GuessFiletype (some file) = EFT_GZip
    · rw [UnpackArchive_gzip env files _ file hg] at h ⊢
      split at h
      · rename_i hb
        rw [if_pos hb]
        cases hin : UnpackArchive env files n (UnpackGZipFile env file).2 with
        | none => rw [hin] at h; simp at h
        | some q => rw [ih _ q hin]; rw [hin] at h; exact h
      · rename_i hb
        rw [if_neg hb]; exact h
    · by_cases hz : GuessFiletype (some file) = EFT_Zip
      · rw [UnpackArchive_zip env files _ file hz] at h ⊢
        cases hu : UnpackZipFile env file files with
        | none => rw [hu] at h; simp at h
        | some u =>
          rw [hu] at h
          simp only at h ⊢
          split at h
          · rename_i hb
            rw [if_pos hb]
            cases hin : UnpackArchive env files n u.2 with
            | none => rw [hin] at h; simp at h
            | some q => rw [ih _ q hin]; rw [hin] at h; exact h
          · rename_i hb
            rw [if_neg hb]; exact h
      · rw [UnpackArchive_other env files _ file hz hg] at h ⊢
        exact h

/-- A result of `UnpackArchive` stays the same at any larger fuel. -/
theorem UnpackArchive_mono_le (env : Env) (files : List String) (fuel fuel' : Nat)
    (file : List Byte) (r : UnpackResult × List Byte) (hle : fuel ≤ fuel')
    (h : UnpackArchive env files fuel file = some r) :
    UnpackArchive env files fuel' file = some r := by
  induction fuel', hle using Nat.le_induction with
  | base => exact h
  | succ k _ ih => exact UnpackArchive_mono env files k file r ih

/-! ## Theorems: the claims on unpacking -/

/-- C2: the archive whose single member is stored as "IPFilter.DAT", with the
candidates "guarding.p2p" and "ipfilter.dat".  The member's lowercased name is a
candidate, yet `UnpackZipFile` returns false and leaves the archive in place: the
enumeration pass lowercases the name before comparing it to the candidates, the
extraction pass compares the entry's stored name with the lowercased one. -/
theorem UnpackZipFile_mixed_case_miss :
    storedEnv.zipEntries mixedCaseZip = [("IPFilter.DAT", [0x78, 0x79, 0x7A], true)] ∧
    Lower "IPFilter.DAT" ∈ ["guarding.p2p", "ipfilter.dat"] ∧
    UnpackZipFile storedEnv mixedCaseZip ["guarding.p2p", "ipfilter.dat"]
      = some (false, mixedCaseZip) := by
  decide

/-- C3, as stated, fails: the file holds gzip of "hi", the unpack step succeeds and
leaves "hi", and the outcome of `UnpackArchive` is (true, Text), at no fuel
(true, GZip). -/
theorem UnpackArchive_gzip_roundtrip_counterexample :
    storedEnv.zlibDecode [0x1F, 0x8B, 0x68, 0x69] = ([0x68, 0x69], true) ∧
    UnpackGZipFile storedEnv [0x1F, 0x8B, 0x68, 0x69] = (true, [0x68, 0x69]) ∧
    UnpackArchive storedEnv [] 2 [0x1F, 0x8B, 0x68, 0x69]
      = some ((true, EFT_Text), [0x68, 0x69]) ∧
    ∀ fuel, UnpackArchive storedEnv [] fuel [0x1F, 0x8B, 0x68, 0x69]
      ≠ some ((true, EFT_GZip), [0x68, 0x69]) := by
  have h2 : UnpackArchive storedEnv [] 2 [0x1F, 0x8B, 0x68, 0x69]
      = some ((true, EFT_Text), [0x68, 0x69]) := by decide
  refine ⟨by decide, by decide, h2, fun fuel => ?_⟩
  match fuel with
  | 0 => decide
  | 1 => decide
  | n + 2 =>
    rw [UnpackArchive_mono_le storedEnv [] 2 (n + 2) _ _ (by omega) h2]
    decide

/-- C3, amended: when the decoder maps the file's bytes `g` (starting 0x1F 0x8B) to `b`
with a clean end, and the commit succeeds, `UnpackGZipFile` returns true and leaves
exactly `b`; `UnpackArchive` then goes on with `b` and reports true with the tag of
the innermost file: (true, GuessFiletype b) with the file holding `b` when `b` is not
classified Zip or GZip. -/
theorem UnpackArchive_gzip_roundtrip (env : Env) (files : List String) (g b : List Byte)
    (fuel : Nat)
    (hdec : env.zlibDecode g = (b, true)) (hmagic : g.take 2 = [0x1F, 0x8B])
    (hcommit : env.commitOk g b = true) :
    UnpackGZipFile env g = (true, b) ∧
    UnpackArchive env files (fuel + 1) g =
      (UnpackArchive env files fuel b).map (fun r => ((true, r.1.2), r.2)) ∧
    (GuessFiletype (some b) ≠ EFT_Zip → GuessFiletype (some b) ≠ EFT_GZip →
      UnpackArchive env files (fuel + 2) g = some ((true, GuessFiletype (some b)), b)) := by
  have hstep : UnpackGZipFile env g = (true, b) := by
    rw [UnpackGZipFile_eq, hdec]
    simp [Commit, hcommit]
  have hrec : UnpackArchive env files (fuel + 1) g =
      (UnpackArchive env files fuel b).map (fun r => ((true, r.1.2), r.2)) := by
    rw [UnpackArchive_gzip env files fuel g (GuessFiletype_gzip g hmagic), hstep]
    simp
  refine ⟨hstep, hrec, fun hz hg => ?_⟩
  rw [UnpackArchive_gzip env files (fuel + 1) g (GuessFiletype_gzip g hmagic), hstep]
  simp [UnpackArchive_other env files fuel b hz hg]

/-- C3, amended, at the gzip of "hi". -/
theorem UnpackArchive_gzip_roundtrip_witness :
    UnpackGZipFile storedEnv [0x1F, 0x8B, 0x68, 0x69] = (true, [0x68, 0x69]) ∧
    UnpackArchive storedEnv [] (0 + 1) [0x1F, 0x8B, 0x68, 0x69] =
      (UnpackArchive storedEnv [] 0 [0x68, 0x69]).map (fun r => ((true, r.1.2), r.2)) ∧
    (GuessFiletype (some [0x68, 0x69]) ≠ EFT_Zip →
      GuessFiletype (some [0x68, 0x69]) ≠ EFT_GZip →
      UnpackArchive storedEnv [] (0 + 2) [0x1F, 0x8B, 0x68, 0x69]
        = some ((true, GuessFiletype (some [0x68, 0x69])), [0x68, 0x69])) :=
  UnpackArchive_gzip_roundtrip storedEnv [] [0x1F, 0x8B, 0x68, 0x69] [0x68, 0x69] 0
    (by decide) (by decide) (by decide)

/-- C4, as stated, fails: the archive holds "guarding.p2p" (bytes "abc") before the
target "ipfilter.dat" (bytes "xyz"), both names are candidates, and `UnpackArchive` on
the gzip of the archive leaves "abc", at no fuel the target's bytes. -/
theorem UnpackArchive_nested_counterexample :
    storedEnv.zlibDecode (0x1F :: 0x8B :: twoMemberZip) = (twoMemberZip, true) ∧
    (("ipfilter.dat", [0x78, 0x79, 0x7A], true) : String × List Byte × Bool)
      ∈ storedEnv.zipEntries twoMemberZip ∧
    "ipfilter.dat" ∈ ["guarding.p2p", "ipfilter.dat"] ∧
    GuessFiletype (some [0x78, 0x79, 0x7A]) = EFT_Text ∧
    UnpackArchive storedEnv ["guarding.p2p", "ipfilter.dat"] 3 (0x1F :: 0x8B :: twoMemberZip)
      = some ((true, EFT_Text), [0x61, 0x62, 0x63]) ∧
    ∀ fuel r, UnpackArchive storedEnv ["guarding.p2p", "ipfilter.dat"] fuel
      (0x1F :: 0x8B :: twoMemberZip) ≠ some (r, [0x78, 0x79, 0x7A]) := by
  have h3 : UnpackArchive storedEnv ["guarding.p2p", "ipfilter.dat"] 3
      (0x1F :: 0x8B :: twoMemberZip) = some ((true, EFT_Text), [0x61, 0x62, 0x63]) := by
    decide
  refine ⟨by decide, by decide, by decide, by decide, h3, fun fuel r => ?_⟩
  match fuel with
  | 0 => simp [UnpackArchive]
  | 1 =>
    have h1 : UnpackArchive storedEnv ["guarding.p2p", "ipfilter.dat"] 1
        (0x1F :: 0x8B :: twoMemberZip) = none := by decide
    simp [h1]
  | 2 =>
    have h2 : UnpackArchive storedEnv ["guarding.p2p", "ipfilter.dat"] 2
        (0x1F :: 0x8B :: twoMemberZip) = none := by decide
    simp [h2]
  | n + 3 =>
    rw [UnpackArchive_mono_le storedEnv _ 3 (n + 3) _ _ (by omega) h3]
    intro h
    have := (Prod.mk.inj (Option.some.inj h)).2
    revert this
    decide

/-- C4, amended: `g` decodes cleanly to `z`, `z` is a zip archive in which the target
member is stored under a lowercase candidate name, its data reading cleanly to `m`,
and no earlier member has a candidate name after lowercasing, both commits succeed,
and the target's bytes `m` are classified neither Zip nor GZip.  Then `UnpackArchive`
on `g` peels both layers: the file finally holds `m` and the result is
(true, GuessFiletype m). -/
theorem UnpackArchive_nested (env : Env) (files : List String) (g z m : List Byte)
    (pre post : List (String × List Byte × Bool)) (name : String) (fuel : Nat)
    (hdec : env.zlibDecode g = (z, true)) (hgmagic : g.take 2 = [0x1F, 0x8B])
    (hzip : env.zipEntries z = pre ++ (name, m, true) :: post)
    (hzmagic : z.take 2 = [0x50, 0x4B])
    (hname : name ∈ files) (hlow : zipLookupName name = name)
    (hpre : ∀ e ∈ pre, zipLookupName e.1 ∉ files)
    (hcommit1 : env.commitOk g z = true) (hcommit2 : env.commitOk z m = true)
    (hmz : GuessFiletype (some m) ≠ EFT_Zip) (hmg : GuessFiletype (some m) ≠ EFT_GZip) :
    UnpackArchive env files (fuel + 3) g = some ((true, GuessFiletype (some m)), m) := by
  have hstep1 : UnpackGZipFile env g = (true, z) := by
    rw [UnpackGZipFile_eq, hdec]
    simp [Commit, hcommit1]
  have hstep2 : UnpackZipFile env z files = some (true, m) := by
    rw [UnpackZipFile_first env z files pre post name m hzip hname hlow hpre]
    simp [Commit, hcommit2]
  rw [UnpackArchive_gzip env files (fuel + 2) g (GuessFiletype_gzip g hgmagic), hstep1]
  simp only [if_true]
  rw [UnpackArchive_zip env files (fuel + 1) z (GuessFiletype_zip z hzmagic), hstep2]
  simp only [if_true]
  rw [UnpackArchive_other env files fuel m hmz hmg]
  rfl

/-- C4, amended, at the gzip of the two-member archive with the single candidate
"ipfilter.dat", which is the second member. -/
theorem UnpackArchive_nested_witness :
    UnpackArchive storedEnv ["ipfilter.dat"] (0 + 3) (0x1F :: 0x8B :: twoMemberZip)
      = some ((true, GuessFiletype (some [0x78, 0x79, 0x7A])), [0x78, 0x79, 0x7A]) :=
  UnpackArchive_nested storedEnv ["ipfilter.dat"] (0x1F :: 0x8B :: twoMemberZip)
    twoMemberZip [0x78, 0x79, 0x7A] [("guarding.p2p", [0x61, 0x62, 0x63], true)] []
    "ipfilter.dat" 0
    (by decide) (by decide) (by decide) (by decide) (by decide) (by decide) (by decide)
    (by decide) (by decide) (by decide) (by decide)

/-- C5: whenever `UnpackArchive` returns a false flag, the tag is `GuessFiletype` of
the original content and the file is unchanged.  A file classified neither Zip nor
GZip yields (false, its tag) unchanged, and a file classified Zip whose archive has no
candidate-named member yields (false, Zip) unchanged. -/
theorem UnpackArchive_failure_unchanged (env : Env) (files : List String) (fuel : Nat)
    (file : List Byte) :
    (∀ tag file', UnpackArchive env files fuel file = some ((false, tag), file') →
      tag = GuessFiletype (some file) ∧ file' = file) ∧
    (GuessFiletype (some file) ≠ EFT_Zip → GuessFiletype (some file) ≠ EFT_GZip →
      UnpackArchive env files (fuel + 1) file
        = some ((false, GuessFiletype (some file)), file)) ∧
    (GuessFiletype (some file) = EFT_Zip →
      ((∀ e ∈ env.zipEntries file, zipLookupName e.1 ∉ files) ∨
        (∀ e ∈ env.zipEntries file, e.1 ∉ files)) →
      UnpackArchive env files (fuel + 1) file = some ((false, EFT_Zip), file)) := by
  refine ⟨fun tag file' h => ?_, UnpackArchive_other env files fuel file, fun hz hmiss => ?_⟩
  · cases fuel with
    | zero => simp [UnpackArchive] at h
    | succ n =>
      by_cases hg : GuessFiletype (some file) = EFT_GZip
      · rw [UnpackArchive_gzip env files n file hg] at h
        split at h
        · cases hin : UnpackArchive env files n (UnpackGZipFile env file).2 <;>
            rw [hin] at h <;> simp at h
        · rename_i hb
          have hb' : (UnpackGZipFile env file).1 = false := by simpa using hb
          rw [UnpackGZipFile_false env file hb'] at h
          simp at h
          exact ⟨by rw [hg, h.1], h.2.symm⟩
      · by_cases hz : GuessFiletype (some file) = EFT_Zip
        · rw [UnpackArchive_zip env files n file hz] at h
          cases hu : UnpackZipFile env file files with
          | none => rw [hu] at h; simp at h
          | some u =>
            rw [hu] at h
            simp only at h
            split at h
            · cases hin : UnpackArchive env files n u.2 <;>
                rw [hin] at h <;> simp at h
            · rename_i hb
              have hb' : u.1 = false := by simpa using hb
              rw [UnpackZipFile_false env file files u hu hb'] at h
              simp at h
              exact ⟨by rw [hz, h.1], h.2.symm⟩
        · rw [UnpackArchive_other env files n file hz hg] at h
          simp at h
          exact ⟨h.1.symm, h.2.symm⟩
  · rw [UnpackArchive_zip env files fuel file hz, UnpackZipFile_miss env file files hmiss]
    simp

/-- C5 at the archive whose only member is "IPFilter.DAT", with the candidate
"guarding.p2p". -/
theorem UnpackArchive_failure_unchanged_witness :
    UnpackArchive storedEnv ["guarding.p2p"] (0 + 1) mixedCaseZip
      = some ((false, EFT_Zip), mixedCaseZip) ∧
    EFT_Zip = GuessFiletype (some mixedCaseZip) ∧ mixedCaseZip = mixedCaseZip :=
  ⟨(UnpackArchive_failure_unchanged storedEnv ["guarding.p2p"] 0 mixedCaseZip).2.2
      (by decide) (Or.inl (by decide)),
    (UnpackArchive_failure_unchanged storedEnv ["guarding.p2p"] 1 mixedCaseZip).1
      EFT_Zip mixedCaseZip (by decide)⟩

/-- C6, as stated, fails: where no commit succeeds, `UnpackGZipFile` on the gzip of
"hi" and `UnpackZipFile` on an archive with a candidate-named member both return
true, with the file unchanged. -/
theorem unpack_commit_counterexample :
    (∀ original scratch, noCommitEnv.commitOk original scratch = false) ∧
    UnpackGZipFile noCommitEnv [0x1F, 0x8B, 0x68, 0x69] = (true, [0x1F, 0x8B, 0x68, 0x69]) ∧
    UnpackZipFile noCommitEnv twoMemberZip ["guarding.p2p", "ipfilter.dat"]
      = some (true, twoMemberZip) := by
  refine ⟨fun _ _ => rfl, by decide, by decide⟩

/-- C6, amended: the result of an unpack step does not depend on the commit, whose
return value the code does not read.
* `UnpackGZipFile` returns true exactly when the decoded data ends cleanly, and the
  file then holds what the commit of all the decoded bytes leaves.
* `UnpackZipFile` returns true exactly when an entry is selected (`zipSelect`) and its
  data is copied to the end, and the file then holds what the commit of that data
  leaves; it returns false when no entry is selected, and does not return when the
  selected entry's data ends in a read error.
* Neither result changes when the commit behaves differently.
* When the commit fails the original file is untouched.
* When the step returns false the original file is untouched whatever a commit would
  do. -/
theorem unpack_result_ignores_commit (env : Env)
    (commitOk' : List Byte → List Byte → Bool) (gz zip : List Byte) (files : List String) :
    UnpackGZipFile env gz =
      (if (env.zlibDecode gz).2 = true then (true, Commit env gz (env.zlibDecode gz).1)
        else (false, gz)) ∧
    UnpackZipFile env zip files =
      (match zipSelect files (env.zipEntries zip) with
        | none => some (false, zip)
        | some e => if e.2.2 = true then some (true, Commit env zip e.2.1) else none) ∧
    (UnpackGZipFile { env with commitOk := commitOk' } gz).1 = (UnpackGZipFile env gz).1 ∧
    (UnpackZipFile { env with commitOk := commitOk' } zip files).map Prod.fst
      = (UnpackZipFile env zip files).map Prod.fst ∧
    ((∀ scratch, env.commitOk gz scratch = false) → (UnpackGZipFile env gz).2 = gz) ∧
    ((∀ scratch, env.commitOk zip scratch = false) →
      ∀ r, UnpackZipFile env zip files = some r → r.2 = zip) ∧
    ((UnpackGZipFile env gz).1 = false →
      UnpackGZipFile { env with commitOk := commitOk' } gz = (false, gz)) ∧
    (∀ content, UnpackZipFile env zip files = some (false, content) →
      UnpackZipFile { env with commitOk := commitOk' } zip files = some (false, zip)) := by
  refine ⟨UnpackGZipFile_eq env gz, UnpackZipFile_eq env zip files, ?_, ?_, ?_, ?_, ?_, ?_⟩
  · rw [UnpackGZipFile_eq, UnpackGZipFile_eq]
    cases (env.zlibDecode gz).2 <;> simp
  · rw [UnpackZipFile_eq, UnpackZipFile_eq]
    cases zipSelect files (env.zipEntries zip) with
    | none => rfl
    | some e =>
      obtain ⟨name, data, clean⟩ := e
      cases clean <;> simp
  · intro hfail
    rw [UnpackGZipFile_eq]
    split
    · simp [Commit, hfail]
    · rfl
  · intro hfail r hr
    rw [UnpackZipFile_eq] at hr
    cases hsel : zipSelect files (env.zipEntries zip) with
    | none =>
      rw [hsel] at hr
      rw [← Option.some.inj hr]
    | some e =>
      rw [hsel] at hr
      by_cases hc : e.2.2 = true
      · simp only [hc, if_true] at hr
        rw [← Option.some.inj hr]
        simp [Commit, hfail]
      · simp [hc] at hr
  · intro hfalse
    rw [UnpackGZipFile_eq] at hfalse ⊢
    by_cases hc : (env.zlibDecode gz).2 = true
    · simp [hc] at hfalse
    · simp [hc]
  · intro content hfalse
    rw [UnpackZipFile_eq] at hfalse ⊢
    cases hsel : zipSelect files (env.zipEntries zip) with
    | none => rfl
    | some e =>
      rw [hsel] at hfalse
      by_cases hc : e.2.2 = true
      · simp [hc] at hfalse
      · simp [hc] at hfalse

/-- C6, amended, where no commit succeeds: the gzip of "hi" and the two-member
archive, in which "guarding.p2p" is selected, both stay as they were. -/
theorem unpack_result_ignores_commit_witness :
    (UnpackGZipFile noCommitEnv [0x1F, 0x8B, 0x68, 0x69]).2 = [0x1F, 0x8B, 0x68, 0x69] ∧
    ∀ r, UnpackZipFile noCommitEnv twoMemberZip ["guarding.p2p", "ipfilter.dat"] = some r →
      r.2 = twoMemberZip :=
  ⟨(unpack_result_ignores_commit noCommitEnv (fun _ _ => true) [0x1F, 0x8B, 0x68, 0x69]
      twoMemberZip ["guarding.p2p", "ipfilter.dat"]).2.2.2.2.1 (fun _ => rfl),
    (unpack_result_ignores_commit noCommitEnv (fun _ _ => true) [0x1F, 0x8B, 0x68, 0x69]
      twoMemberZip ["guarding.p2p", "ipfilter.dat"]).2.2.2.2.2.1 (fun _ => rfl)⟩

/-- `UnpackArchive` never returns on a file classified GZip that a successful step
leaves as it was. -/
theorem UnpackArchive_gzip_fixed (env : Env) (files : List String) (file : List Byte)
    (hg : GuessFiletype (some file) = EFT_GZip) (hfix : UnpackGZipFile env file = (true, file)) :
    ∀ fuel, UnpackArchive env files fuel file = none := by
  intro fuel
  induction fuel with
  | zero => rfl
  | succ n ih =>
    rw [UnpackArchive_gzip env files n file hg, hfix]
    simp [ih]

/-- `UnpackArchive` never returns on a file classified Zip that a successful step
leaves as it was. -/
theorem UnpackArchive_zip_fixed (env : Env) (files : List String) (file : List Byte)
    (hz : GuessFiletype (some file) = EFT_Zip)
    (hfix : UnpackZipFile env file files = some (true, file)) :
    ∀ fuel, UnpackArchive env files fuel file = none := by
  intro fuel
  induction fuel with
  | zero => rfl
  | succ n ih =>
    rw [UnpackArchive_zip env files n file hz, hfix]
    simp [ih]

/-- `UnpackArchive` never returns on a file classified Zip on which `UnpackZipFile`
never returns. -/
theorem UnpackArchive_zip_spins (env : Env) (files : List String) (file : List Byte)
    (hz : GuessFiletype (some file) = EFT_Zip) (hspin : UnpackZipFile env file files = none) :
    ∀ fuel, UnpackArchive env files fuel file = none := by
  intro fuel
  cases fuel with
  | zero => rfl
  | succ n => rw [UnpackArchive_zip env files n file hz, hspin]

/-- C7, as stated, fails, three times.  Where a gzip file decodes to itself, and where
no commit succeeds, the unpack step succeeds and leaves the file's bytes as they
were, and `UnpackArchive` returns at no recursion depth.  Where the candidate-named
entry of a zip archive ends in a read error, the copy loop of `UnpackZipFile` ends at
no number of rounds, and `UnpackArchive` does not return either. -/
theorem UnpackArchive_termination_counterexample :
    (UnpackGZipFile selfEnv selfGz = (true, selfGz) ∧
      ∀ fuel, UnpackArchive selfEnv [] fuel selfGz = none) ∧
    (UnpackGZipFile noCommitEnv [0x1F, 0x8B, 0x68, 0x69]
        = (true, [0x1F, 0x8B, 0x68, 0x69]) ∧
      ∀ fuel, UnpackArchive noCommitEnv [] fuel [0x1F, 0x8B, 0x68, 0x69] = none) ∧
    (storedEnv.zipEntries badEntryZip = [("ipfilter.dat", [0x78], false)] ∧
      (∀ fuel, zipCopyLoop fuel (InputStream.init [0x78] false) [] = none) ∧
      ∀ fuel, UnpackArchive storedEnv ["ipfilter.dat"] fuel badEntryZip = none) := by
  refine ⟨⟨by decide, UnpackArchive_gzip_fixed selfEnv [] selfGz (by decide) (by decide)⟩,
    ⟨by decide, UnpackArchive_gzip_fixed noCommitEnv [] _ (by decide) (by decide)⟩,
    ⟨by decide, fun fuel => zipCopyLoop_spins fuel _ [] (by simp [InputStream.init]) rfl,
      UnpackArchive_zip_spins storedEnv ["ipfilter.dat"] badEntryZip (by decide) (by decide)⟩⟩

/-- C7, amended: `UnpackArchive` recurses only after a successful unpack step; a file
that is no archive and a failed step are base cases, which return at recursion depth
one.  It returns a result, at every depth above the rank of the initial content,
when on the files reached from the initial content by successful steps every call of
`UnpackZipFile` returns and some rank of the content drops at every successful
step.  It returns at no depth when `UnpackZipFile` does not return, and when a
successful step leaves the file's bytes as they were: nothing in the code bounds the
depth or checks that a step changed the file. -/
theorem UnpackArchive_terminates_of_rank (env : Env) (files : List String)
    (rank : List Byte → Nat) (reached : List Byte → Prop) (file : List Byte)
    (hfile : reached file)
    (hzip : ∀ f, reached f → GuessFiletype (some f) = EFT_Zip →
      ∃ r, UnpackZipFile env f files = some r ∧
        (r.1 = true → reached r.2 ∧ rank r.2 < rank f))
    (hgz : ∀ f, reached f → GuessFiletype (some f) = EFT_GZip →
      (UnpackGZipFile env f).1 = true →
      reached (UnpackGZipFile env f).2 ∧ rank (UnpackGZipFile env f).2 < rank f) :
    (∃ r, ∀ fuel, rank file < fuel → UnpackArchive env files fuel file = some r) ∧
    (GuessFiletype (some file) ≠ EFT_Zip → GuessFiletype (some file) ≠ EFT_GZip →
      UnpackArchive env files 1 file = some ((false, GuessFiletype (some file)), file)) ∧
    (GuessFiletype (some file) = EFT_Zip →
      ∀ r, UnpackZipFile env file files = some r → r.1 = false →
      UnpackArchive env files 1 file = some ((false, EFT_Zip), file)) ∧
    (GuessFiletype (some file) = EFT_GZip → (UnpackGZipFile env file).1 = false →
      UnpackArchive env files 1 file = some ((false, EFT_GZip), file)) ∧
    (GuessFiletype (some file) = EFT_Zip → UnpackZipFile env file files = none →
      ∀ fuel, UnpackArchive env files fuel file = none) ∧
    (GuessFiletype (some file) = EFT_Zip → UnpackZipFile env file files = some (true, file) →
      ∀ fuel, UnpackArchive env files fuel file = none) ∧
    (GuessFiletype (some file) = EFT_GZip → UnpackGZipFile env file = (true, file) →
      ∀ fuel, UnpackArchive env files fuel file = none) := by
  have main : ∀ n f, reached f → rank f ≤ n →
      ∃ r, UnpackArchive env files (n + 1) f = some r := by
    intro n
    induction n with
    | zero =>
      intro f hf hr
      by_cases hg : GuessFiletype (some f) = EFT_GZip
      · rw [UnpackArchive_gzip env files 0 f hg]
        split
        · rename_i hb
          have := (hgz f hf hg hb).2
          omega
        · exact ⟨_, rfl⟩
      · by_cases hz : GuessFiletype (some f) = EFT_Zip
        · obtain ⟨u, hu, hstep⟩ := hzip f hf hz
          rw [UnpackArchive_zip env files 0 f hz, hu]
          simp only
          split
          · rename_i hb
            have := (hstep hb).2
            omega
          · exact ⟨_, rfl⟩
        · exact ⟨_, UnpackArchive_other env files 0 f hz hg⟩
    | succ k ih =>
      intro f hf hr
      by_cases hg : GuessFiletype (some f) = EFT_GZip
      · rw [UnpackArchive_gzip env files (k + 1) f hg]
        split
        · rename_i hb
          obtain ⟨hreach, hlt⟩ := hgz f hf hg hb
          obtain ⟨q, hq⟩ := ih (UnpackGZipFile env f).2 hreach (by omega)
          exact ⟨_, by rw [hq]; rfl⟩
        · exact ⟨_, rfl⟩
      · by_cases hz : GuessFiletype (some f) = EFT_Zip
        · obtain ⟨u, hu, hstep⟩ := hzip f hf hz
          rw [UnpackArchive_zip env files (k + 1) f hz, hu]
          simp only
          split
          · rename_i hb
            obtain ⟨hreach, hlt⟩ := hstep hb
            obtain ⟨q, hq⟩ := ih u.2 hreach (by omega)
            exact ⟨_, by rw [hq]; rfl⟩
          · exact ⟨_, rfl⟩
        · exact ⟨_, UnpackArchive_other env files (k + 1) f hz hg⟩
  refine ⟨?_, UnpackArchive_other env files 0 file, fun hz r hr hb => ?_, fun hg hb => ?_,
    UnpackArchive_zip_spins env files file, UnpackArchive_zip_fixed env files file,
    UnpackArchive_gzip_fixed env files file⟩
  · obtain ⟨r, hr⟩ := main (rank file) file hfile (Nat.le_refl _)
    exact ⟨r, fun fuel hf =>
      UnpackArchive_mono_le env files (rank file + 1) fuel file r (by omega) hr⟩
  · rw [UnpackArchive_zip env files 0 file hz, hr]
    simp only [hb, Bool.false_eq_true, if_false]
    rw [UnpackZipFile_false env file files r hr hb]
  · rw [UnpackArchive_gzip env files 0 file hg, if_neg (by simp [hb]),
      UnpackGZipFile_false env file hb]

/-- C7, amended, at the gzip of the two-member archive with the candidate
"ipfilter.dat": a gzip step, then a zip step, then a text; the rank is the length. -/
theorem UnpackArchive_terminates_of_rank_witness :
    ∃ r, ∀ fuel, List.length (0x1F :: 0x8B :: twoMemberZip) < fuel →
      UnpackArchive storedEnv ["ipfilter.dat"] fuel (0x1F :: 0x8B :: twoMemberZip) = some r :=
  (UnpackArchive_terminates_of_rank storedEnv ["ipfilter.dat"] List.length nestedChain
    (0x1F :: 0x8B :: twoMemberZip) (Or.inl rfl)
    (fun f hf hz => by
      rcases hf with rfl | rfl | rfl
      · exact absurd hz (by decide)
      · exact ⟨(true, [0x78, 0x79, 0x7A]), by decide,
          fun _ => ⟨Or.inr (Or.inr rfl), by decide⟩⟩
      · exact absurd hz (by decide))
    (fun f hf hg _ => by
      rcases hf with rfl | rfl | rfl
      · have hstep : UnpackGZipFile storedEnv (0x1F :: 0x8B :: twoMemberZip)
            = (true, twoMemberZip) := by decide
        rw [hstep]
        exact ⟨Or.inr (Or.inl rfl), by decide⟩
      · exact absurd hg (by decide)
      · exact absurd hg (by decide))).1


/-! ## Theorems: CheckFileSystem -/

section Cache

variable {CPath : Type} [DecidableEq CPath]

/-- Assigning one key does not change what is cached for another. -/
theorem lookup_cacheAssign_ne (cache : List (CPath × FSCheckResult)) (p q : CPath)
    (v : FSCheckResult) (h : p ≠ q) :
    (cacheAssign cache q v).lookup p = cache.lookup p := by
  have hfilter : (cache.filter (fun e => !decide (e.1 = q))).lookup p = cache.lookup p := by
    induction cache with
    | nil => rfl
    | cons e rest ih =>
      obtain ⟨k, w⟩ := e
      by_cases hk : k = q
      · subst hk
        have hpk : (p == k) = false := by simpa using h
        simp [List.filter_cons, List.lookup_cons, hpk, ih]
      · by_cases hpk : p = k
        · subst hpk
          simp [List.filter_cons, List.lookup_cons, hk]
        · have hpk' : (p == k) = false := by simpa using hpk
          simp [List.filter_cons, List.lookup_cons, hk, hpk', ih]
  have hpq : (p == q) = false := by simpa using h
  simp [cacheAssign, List.lookup_cons, hpq, hfilter]

/-- Assigning a key caches the value for it. -/
theorem lookup_cacheAssign_self (cache : List (CPath × FSCheckResult)) (q : CPath)
    (v : FSCheckResult) : (cacheAssign cache q v).lookup q = some v := by
  simp [cacheAssign, List.lookup_cons]

/-- A call for a valid path leaves the path cached with the value returned. -/
theorem CheckFileSystem_caches (IsOk : CPath → Bool) (sysOpen : Nat → CPath → OpenOutcome)
    (s : CacheState CPath) (path : CPath) (hok : IsOk path = true) :
    (CheckFileSystem IsOk sysOpen s path).2.s_cache.lookup path
      = some (CheckFileSystem IsOk sysOpen s path).1 := by
  unfold CheckFileSystem
  simp only [hok, Bool.true_eq_false, if_false]
  cases h : s.s_cache.lookup path with
  | some c => simpa using h
  | none => simp [lookup_cacheAssign_self]

/-- A call for any path keeps what is cached for `path` and adds no probe of `path`
once `path` is cached. -/
theorem CheckFileSystem_keeps (IsOk : CPath → Bool) (sysOpen : Nat → CPath → OpenOutcome)
    (s : CacheState CPath) (path q : CPath) (v : FSCheckResult)
    (h : s.s_cache.lookup path = some v) :
    (CheckFileSystem IsOk sysOpen s q).2.s_cache.lookup path = some v ∧
    (CheckFileSystem IsOk sysOpen s q).2.probes.count path = s.probes.count path := by
  unfold CheckFileSystem
  by_cases hok : IsOk q = false
  · simp [hok, h]
  · simp only [hok, if_false]
    cases hq : s.s_cache.lookup q with
    | some c => simp [h]
    | none =>
      have hne : path ≠ q := fun heq => by rw [heq, hq] at h; simp at h
      have hne' : ¬ q = path := fun heq => hne heq.symm
      simp [lookup_cacheAssign_ne _ _ _ _ hne, h, List.count_append, List.count_cons, hne']

/-- A sequence of calls keeps what is cached for `path` and adds no probe of `path`
once `path` is cached. -/
theorem runCalls_keeps (IsOk : CPath → Bool) (sysOpen : Nat → CPath → OpenOutcome)
    (calls : List CPath) : ∀ (s : CacheState CPath) (path : CPath) (v : FSCheckResult),
    s.s_cache.lookup path = some v →
    (runCalls IsOk sysOpen s calls).2.s_cache.lookup path = some v ∧
    (runCalls IsOk sysOpen s calls).2.probes.count path = s.probes.count path := by
  induction calls with
  | nil => intro s path v h; exact ⟨h, rfl⟩
  | cons q rest ih =>
    intro s path v h
    obtain ⟨h1, h2⟩ := CheckFileSystem_keeps IsOk sysOpen s path q v h
    obtain ⟨h3, h4⟩ := ih (CheckFileSystem IsOk sysOpen s q).2 path v h1
    exact ⟨h3, h4.trans h2⟩

/-- A call probes a path that is not cached at most once and no other path. -/
theorem CheckFileSystem_probes (IsOk : CPath → Bool) (sysOpen : Nat → CPath → OpenOutcome)
    (s : CacheState CPath) (path q : CPath) (h : s.s_cache.lookup path = none) :
    ((CheckFileSystem IsOk sysOpen s q).2.s_cache.lookup path = none ∧
      (CheckFileSystem IsOk sysOpen s q).2.probes.count path = s.probes.count path) ∨
    ((CheckFileSystem IsOk sysOpen s q).2.s_cache.lookup path ≠ none ∧
      (CheckFileSystem IsOk sysOpen s q).2.probes.count path = s.probes.count path + 1) := by
  unfold CheckFileSystem
  by_cases hok : IsOk q = false
  · simp [hok, h]
  · simp only [hok, if_false]
    cases hq : s.s_cache.lookup q with
    | some c => simp [h]
    | none =>
      by_cases hpq : path = q
      · subst hpq
        right
        simp [lookup_cacheAssign_self, List.count_append]
      · left
        have hne' : ¬ q = path := fun heq => hpq heq.symm
        simp [lookup_cacheAssign_ne _ _ _ _ hpq, h, List.count_append, List.count_cons, hne']

/-- A sequence of calls probes a path that is not cached at most once. -/
theorem runCalls_probes (IsOk : CPath → Bool) (sysOpen : Nat → CPath → OpenOutcome)
    (calls : List CPath) : ∀ (s : CacheState CPath) (path : CPath),
    s.s_cache.lookup path = none →
    (runCalls IsOk sysOpen s calls).2.probes.count path ≤ s.probes.count path + 1 := by
  induction calls with
  | nil => intro s path _; simp [runCalls]
  | cons q rest ih =>
    intro s path h
    show (runCalls IsOk sysOpen (CheckFileSystem IsOk sysOpen s q).2 rest).2.probes.count path
      ≤ s.probes.count path + 1
    rcases CheckFileSystem_probes IsOk sysOpen s path q h with ⟨h1, h2⟩ | ⟨h1, h2⟩
    · have := ih (CheckFileSystem IsOk sysOpen s q).2 path h1
      omega
    · obtain ⟨v, hv⟩ := Option.ne_none_iff_exists'.mp h1
      have := (runCalls_keeps IsOk sysOpen rest _ path v hv).2
      omega

end Cache

end FileFunctions
